import Mathlib

/-!
Verification of the sandbox-game texture-atlas packer (`TextureAtlas` in the
rendering code) and the per-frame orchestration loop (`Game`).

The embedding follows the TypeScript source directly:

* `planPacking` embeds `TextureAtlas.planPacking`: a single-pass greedy shelf
  packer over a list of image dimensions, threading the mutable loop state
  (`current_x`, `current_row_height`, `plan.width`, `plan.height`,
  `plan.records`) through a fold and signalling the two `throw new Error(...)`
  sites as `Except.error`.
* `packCanvas` embeds `TextureAtlas.packCanvas`: allocation of a canvas sized
  from the plan, with the nullable 2d-context modelled as a boolean input.
* `doMainLoop` / `start` embed `Game.doMainLoop` / `Game.start`: each tick the
  callback reschedules itself first, then runs input processing, game-state
  update and rendering inside a try/catch, so a throwing phase skips the rest
  of its tick, is swallowed, and the next tick still runs.

Image dimensions (`HTMLImageElement.width/.height`) are non-negative integers,
modelled as `Nat`.
-/

namespace SandboxGame

/-- `TextureAtlas.MAX_DIMENSION`: maximum allowable texture atlas dimension. -/
def MAX_DIMENSION : Nat := 4096

/-- The dimensions of one input image (`HTMLImageElement.width` / `.height`). -/
structure ImageDim where
  width : Nat
  height : Nat
deriving DecidableEq, Repr, Inhabited

/-- `TextureAtlasRecord`: placement of a single texture in the atlas. -/
structure TextureAtlasRecord where
  top_left_x : Nat
  top_left_y : Nat
  width : Nat
  height : Nat
deriving DecidableEq, Repr, Inhabited

/-- `TextureAtlasPlan`: the set of placements of textures into the atlas. -/
structure TextureAtlasPlan where
  width : Nat
  height : Nat
  records : List TextureAtlasRecord
deriving DecidableEq, Repr, Inhabited

/-- The two `throw new Error(...)` sites of `planPacking`. -/
inductive PackError where
  | widthExceeded
  | heightExceeded
deriving DecidableEq, Repr

/-- The mutable state of `planPacking`'s loop: the two cursor variables plus
the plan being built. -/
structure PackState where
  current_x : Nat
  current_row_height : Nat
  width : Nat
  height : Nat
  records : List TextureAtlasRecord
deriving DecidableEq, Repr, Inhabited

/-- The row-wrap branch of the loop body: if the image would overflow the
current row, advance to the next row (`current_x = 0`,
`plan.height += current_row_height`, `current_row_height = 0`). -/
def wrapState (s : PackState) (image : ImageDim) : PackState :=
  if s.current_x + image.width > MAX_DIMENSION then
    { s with current_x := 0,
             height := s.height + s.current_row_height,
             current_row_height := 0 }
  else s

/-- The record pushed for `image` from state `s`: placed at the post-wrap
cursor position, with the image's own width and height. -/
def mkRecord (s : PackState) (image : ImageDim) : TextureAtlasRecord :=
  { top_left_x := (wrapState s image).current_x
    top_left_y := (wrapState s image).height
    width := image.width
    height := image.height }

/-- The mutating part of the loop body (everything except the two checks):
row wrap, record insertion, cursor advance, running-max updates of
`plan.width` and `current_row_height`. -/
def placeImage (s : PackState) (image : ImageDim) : PackState :=
  let s1 := wrapState s image
  let s2 := { s1 with records := s1.records ++ [mkRecord s image] }
  let cx := s2.current_x + image.width
  { s2 with
      current_x := cx,
      width := if cx > s2.width then cx else s2.width,
      current_row_height :=
        if image.height > s2.current_row_height then image.height
        else s2.current_row_height }

/-- One iteration of `planPacking`'s `for` loop: the width check, then — the
row wrap being a pure function of the incoming state — the height check
against the post-wrap committed height, then the state mutation. -/
def packStep (s : PackState) (image : ImageDim) : Except PackError PackState :=
  if image.width > MAX_DIMENSION then
    .error .widthExceeded
  else if (wrapState s image).height + image.height > MAX_DIMENSION then
    .error .heightExceeded
  else
    .ok (placeImage s image)

/-- The whole `for` loop, threading the state; an error aborts the loop. -/
def packFold (s : PackState) : List ImageDim → Except PackError PackState
  | [] => .ok s
  | image :: rest =>
    match packStep s image with
    | .ok s' => packFold s' rest
    | .error e => .error e

/-- The state at entry of the loop: empty plan, cursors at zero. -/
def initState : PackState :=
  { current_x := 0, current_row_height := 0, width := 0, height := 0, records := [] }

/-- `TextureAtlas.planPacking`: develops the packing strategy, or throws. -/
def planPacking (images : List ImageDim) : Except PackError TextureAtlasPlan :=
  (packFold initState images).map fun s =>
    { width := s.width, height := s.height, records := s.records }

/-- Two placement rectangles overlap when some point is interior to both. -/
def rectOverlap (a b : TextureAtlasRecord) : Prop :=
  max a.top_left_x b.top_left_x < min (a.top_left_x + a.width) (b.top_left_x + b.width) ∧
  max a.top_left_y b.top_left_y < min (a.top_left_y + a.height) (b.top_left_y + b.height)

instance : DecidablePred (fun p : TextureAtlasRecord × TextureAtlasRecord => rectOverlap p.1 p.2) :=
  fun _ => by unfold rectOverlap; infer_instance

instance (a b : TextureAtlasRecord) : Decidable (rectOverlap a b) := by
  unfold rectOverlap; infer_instance

/-- The check-free loop over a whole image list: the layout the algorithm
produces when no dimension check fires. -/
def placeAll (s : PackState) (images : List ImageDim) : PackState :=
  images.foldl placeImage s

/-- The height the shelf layout of `images` actually occupies: committed rows
plus the trailing (uncommitted) row. -/
def totalPackedHeight (images : List ImageDim) : Nat :=
  (placeAll initState images).height + (placeAll initState images).current_row_height

/-- The greedy row partition induced by the loop's wrap rule: `cur` is the row
being filled and `curW` its current width; an image that would overflow
`MAX_DIMENSION` starts a new row. -/
def specRowsAux (cur : List ImageDim) (curW : Nat) :
    List ImageDim → List (List ImageDim)
  | [] => [cur]
  | image :: rest =>
    if curW + image.width > MAX_DIMENSION then
      cur :: specRowsAux [image] image.width rest
    else
      specRowsAux (cur ++ [image]) (curW + image.width) rest

/-- The rows of the shelf layout of `images`, in order; empty input has no
rows. -/
def specRows : List ImageDim → List (List ImageDim)
  | [] => []
  | image :: rest => specRowsAux [] 0 (image :: rest)

/-- The height of one row: the maximum height of its images. -/
def rowHeight (row : List ImageDim) : Nat :=
  (row.map (fun i => i.height)).foldl max 0

/-- Stated from the spec's reading of the algorithm: the committed height is
the sum of the maximum image heights of all rows except the final (possibly
partial) one. -/
def committedHeight (images : List ImageDim) : Nat :=
  (((specRows images).dropLast).map rowHeight).sum

/-- The canvas allocated by `TextureAtlas.packCanvas`: its dimensions, and the
draw origins issued against it (one `drawImage` per record, in order). -/
structure Canvas where
  width : Nat
  height : Nat
  draws : List (Nat × Nat)
deriving DecidableEq, Repr

/-- `TextureAtlas.packCanvas`: allocates a canvas sized from the plan, throws
if the 2d context cannot be acquired, then blits every image at its record's
origin.  Whether `getContext` returns null is an input of the model. -/
def packCanvas (contextAvailable : Bool) (plan : TextureAtlasPlan) :
    Except String Canvas :=
  if contextAvailable then
    .ok { width := plan.width, height := plan.height,
          draws := plan.records.map fun r => (r.top_left_x, r.top_left_y) }
  else
    .error "Failed to get canvas context."

/-- The condition under which the loop body throws for `image` from state
`s`: the width check, or the height check evaluated against the committed
height after the row-wrap decision. -/
def stepFails (s : PackState) (image : ImageDim) : Prop :=
  image.width > MAX_DIMENSION ∨
    (wrapState s image).height + image.height > MAX_DIMENSION

instance (s : PackState) (image : ImageDim) : Decidable (stepFails s image) := by
  unfold stepFails; infer_instance

/-- The committed height plus the running height of the open row: the total
height the layout occupies so far. -/
def phi (s : PackState) : Nat :=
  s.height + s.current_row_height

/-- The width/height pair of a record. -/
def recDims (r : TextureAtlasRecord) : Nat × Nat :=
  (r.width, r.height)

/-- The width/height pair of an input image. -/
def imgDims (i : ImageDim) : Nat × Nat :=
  (i.width, i.height)

/-- The invariant the loop state maintains between iterations (for states
reached through successful `packStep`s from `initState`). -/
structure PackInv (s : PackState) : Prop where
  cx_le : s.current_x ≤ MAX_DIMENSION
  h_le : s.height ≤ MAX_DIMENSION
  w_le : s.width ≤ MAX_DIMENSION
  placed : ∀ r ∈ s.records,
    r.top_left_y + r.height ≤ s.height ∨
    (r.top_left_y = s.height ∧ r.height ≤ s.current_row_height ∧
      r.top_left_x + r.width ≤ s.current_x)
  y_bound : ∀ r ∈ s.records, r.top_left_y + r.height ≤ MAX_DIMENSION
  x_bound : ∀ r ∈ s.records, r.top_left_x + r.width ≤ s.width
  w_eq : s.width = (s.records.map (fun r => r.top_left_x + r.width)).foldl max 0
  nover : s.records.Pairwise (fun a b => ¬ rectOverlap a b)
  y_mono : s.records.Pairwise (fun a b => a.top_left_y ≤ b.top_left_y)

/-- The three per-tick phases of `Game.doMainLoop`. -/
inductive Phase where
  | inputPhase
  | statePhase
  | renderPhase
deriving DecidableEq, Repr

/-- Whether each manager call throws during one tick: the only behaviour of
the three collaborators the loop can observe. -/
structure TickBehavior where
  inputThrows : Bool
  stateThrows : Bool
  renderThrows : Bool
deriving DecidableEq, Repr, Inhabited

namespace Game

/-- The try-block of `main()`: runs `doInputProcessing`,
`doUpdateGameState`, `doRender` in order, stopping at the first phase that
throws.  Returns the phases actually invoked and the exception (if any)
escaping the block into the catch. -/
def tickTry (b : TickBehavior) : List Phase × Option Unit :=
  if b.inputThrows then
    ([.inputPhase], some ())
  else if b.stateThrows then
    ([.inputPhase, .statePhase], some ())
  else if b.renderThrows then
    ([.inputPhase, .statePhase, .renderPhase], some ())
  else
    ([.inputPhase, .statePhase, .renderPhase], none)

/-- `Game.doMainLoop` observed over a finite schedule of ticks: each `main()`
call first re-registers itself via `requestAnimationFrame` and only then runs
the try/catch, whose catch swallows the exception (`console.error`), so every
scheduled tick executes regardless of earlier ticks' failures.  Returns the
phases invoked on each tick. -/
def doMainLoop : List TickBehavior → List (List Phase)
  | [] => []
  | b :: rest => (tickTry b).1 :: doMainLoop rest

/-- The outcome of `Game.start`: whether the main loop was entered, and the
per-tick trace it produced. -/
structure GameRun where
  running : Bool
  trace : List (List Phase)
deriving DecidableEq, Repr

/-- `displayManager.initialize()` as the loop sees it: it either returns or
throws. -/
def runInit (initThrows : Bool) : Except Unit Unit :=
  if initThrows then .error () else .ok ()

/-- `Game.start`: initialization is wrapped in try/catch — the catch only
logs — and then `doMainLoop` is called unconditionally, so both branches
proceed to the loop. -/
def start (initThrows : Bool) (ticks : List TickBehavior) : GameRun :=
  match runInit initThrows with
  | .ok _ => { running := true, trace := doMainLoop ticks }
  | .error _ => { running := true, trace := doMainLoop ticks }

end Game

end SandboxGame

namespace SandboxGame

-- Sanity: the worked example of the spec (sizes (100,50), (100,50), (4050,50)).
example :
    planPacking [⟨100, 50⟩, ⟨100, 50⟩, ⟨4050, 50⟩] =
      .ok { width := 4050, height := 50,
            records := [⟨0, 0, 100, 50⟩, ⟨100, 0, 100, 50⟩, ⟨0, 50, 4050, 50⟩] } := by
  rfl

example : planPacking [] = .ok { width := 0, height := 0, records := [] } := rfl

example : planPacking [⟨5000, 10⟩] = .error .widthExceeded := rfl

-- Trailing-row height is not counted: a single image yields height 0.
example : planPacking [⟨10, 10⟩] = .ok { width := 10, height := 0, records := [⟨0, 0, 10, 10⟩] } := rfl

/-! ### Basic facts about one loop iteration -/

lemma wrapState_records (s : PackState) (image : ImageDim) :
    (wrapState s image).records = s.records := by
  unfold wrapState; split <;> rfl

lemma wrapState_width (s : PackState) (image : ImageDim) :
    (wrapState s image).width = s.width := by
  unfold wrapState; split <;> rfl

lemma placeImage_records (s : PackState) (image : ImageDim) :
    (placeImage s image).records = s.records ++ [mkRecord s image] := by
  simp [placeImage, wrapState_records]

lemma placeImage_height (s : PackState) (image : ImageDim) :
    (placeImage s image).height = (wrapState s image).height := rfl

lemma placeImage_current_x (s : PackState) (image : ImageDim) :
    (placeImage s image).current_x = (wrapState s image).current_x + image.width := rfl

lemma iteMax (a b : Nat) : (if a > b then a else b) = max b a := by
  rw [Nat.max_def]; split <;> split <;> omega

lemma wrapState_pos {s : PackState} {image : ImageDim}
    (h : s.current_x + image.width > MAX_DIMENSION) :
    wrapState s image =
      { s with current_x := 0, height := s.height + s.current_row_height,
               current_row_height := 0 } := by
  unfold wrapState; rw [if_pos h]

lemma wrapState_neg {s : PackState} {image : ImageDim}
    (h : ¬ s.current_x + image.width > MAX_DIMENSION) :
    wrapState s image = s := by
  unfold wrapState; rw [if_neg h]

lemma placeImage_crh (s : PackState) (image : ImageDim) :
    (placeImage s image).current_row_height =
      max (wrapState s image).current_row_height image.height := by
  simp only [placeImage]
  exact iteMax _ _

lemma placeImage_width (s : PackState) (image : ImageDim) :
    (placeImage s image).width =
      max s.width ((wrapState s image).current_x + image.width) := by
  simp only [placeImage, wrapState_width]
  exact iteMax _ _

lemma mkRecord_x (s : PackState) (image : ImageDim) :
    (mkRecord s image).top_left_x = (wrapState s image).current_x := rfl

lemma mkRecord_y (s : PackState) (image : ImageDim) :
    (mkRecord s image).top_left_y = (wrapState s image).height := rfl

lemma mkRecord_w (s : PackState) (image : ImageDim) :
    (mkRecord s image).width = image.width := rfl

lemma mkRecord_h (s : PackState) (image : ImageDim) :
    (mkRecord s image).height = image.height := rfl

lemma phi_placeImage_le (s : PackState) (image : ImageDim) :
    phi s ≤ phi (placeImage s image) := by
  unfold phi
  rw [placeImage_height, placeImage_crh]
  by_cases hwrap : s.current_x + image.width > MAX_DIMENSION
  · rw [wrapState_pos hwrap]; simp
  · rw [wrapState_neg hwrap]; omega

lemma check_le_phi_placeImage (s : PackState) (image : ImageDim) :
    (wrapState s image).height + image.height ≤ phi (placeImage s image) := by
  unfold phi
  rw [placeImage_height, placeImage_crh]
  omega

lemma packStep_ok_of (s : PackState) (image : ImageDim)
    (hw : image.width ≤ MAX_DIMENSION)
    (hh : (wrapState s image).height + image.height ≤ MAX_DIMENSION) :
    packStep s image = .ok (placeImage s image) := by
  unfold packStep
  rw [if_neg (by omega), if_neg (by omega)]

lemma packStep_ok_elim {s s' : PackState} {image : ImageDim}
    (h : packStep s image = .ok s') :
    s' = placeImage s image ∧ image.width ≤ MAX_DIMENSION ∧
      (wrapState s image).height + image.height ≤ MAX_DIMENSION := by
  unfold packStep at h
  split_ifs at h with h1 h2
  cases h
  exact ⟨rfl, by omega, by omega⟩

lemma packStep_isOk_false_iff (s : PackState) (image : ImageDim) :
    (packStep s image).isOk = false ↔ stepFails s image := by
  unfold packStep stepFails
  split_ifs with h1 h2
  · exact iff_of_true rfl (Or.inl h1)
  · exact iff_of_true rfl (Or.inr h2)
  · exact iff_of_false (by simp [Except.isOk, Except.toBool]) (by omega)

/-! ### Facts about the whole loop -/

lemma placeAll_nil (s : PackState) : placeAll s [] = s := rfl

lemma placeAll_cons (s : PackState) (image : ImageDim) (rest : List ImageDim) :
    placeAll s (image :: rest) = placeAll (placeImage s image) rest := rfl

lemma phi_placeAll_le (l : List ImageDim) :
    ∀ s : PackState, phi s ≤ phi (placeAll s l) := by
  induction l with
  | nil => intro s; exact le_refl _
  | cons image rest ih =>
    intro s
    calc phi s ≤ phi (placeImage s image) := phi_placeImage_le s image
      _ ≤ phi (placeAll (placeImage s image) rest) := ih _

lemma packFold_ok_of (l : List ImageDim) :
    ∀ s : PackState, (∀ i ∈ l, i.width ≤ MAX_DIMENSION) →
      phi (placeAll s l) ≤ MAX_DIMENSION →
      packFold s l = .ok (placeAll s l) := by
  induction l with
  | nil => intro s _ _; rfl
  | cons image rest ih =>
    intro s hw hphi
    rw [placeAll_cons] at hphi ⊢
    have hw0 : image.width ≤ MAX_DIMENSION := hw image (by simp)
    have hh : (wrapState s image).height + image.height ≤ MAX_DIMENSION := by
      calc (wrapState s image).height + image.height
          ≤ phi (placeImage s image) := check_le_phi_placeImage s image
        _ ≤ phi (placeAll (placeImage s image) rest) := phi_placeAll_le rest _
        _ ≤ MAX_DIMENSION := hphi
    unfold packFold
    rw [packStep_ok_of s image hw0 hh]
    exact ih _ (fun i hi => hw i (by simp [hi])) hphi

lemma packFold_nil_elim {s s' : PackState} (h : packFold s [] = .ok s') : s' = s := by
  cases h; rfl

lemma packFold_cons_elim {s s' : PackState} {image : ImageDim} {rest : List ImageDim}
    (h : packFold s (image :: rest) = .ok s') :
    packStep s image = .ok (placeImage s image) ∧
      packFold (placeImage s image) rest = .ok s' := by
  unfold packFold at h
  cases hstep : packStep s image with
  | error e => rw [hstep] at h; cases h
  | ok s1 =>
    rw [hstep] at h
    obtain ⟨h1, _, _⟩ := packStep_ok_elim hstep
    subst h1
    exact ⟨rfl, h⟩

lemma packFold_records_dims (l : List ImageDim) :
    ∀ s s' : PackState, packFold s l = .ok s' →
      s'.records.map recDims = s.records.map recDims ++ l.map imgDims := by
  induction l with
  | nil => intro s s' h; rw [packFold_nil_elim h]; simp
  | cons image rest ih =>
    intro s s' h
    obtain ⟨_, hrest⟩ := packFold_cons_elim h
    rw [ih _ _ hrest, placeImage_records]
    simp [recDims, imgDims, mkRecord]

lemma packFold_records_extend (l : List ImageDim) :
    ∀ s s' : PackState, packFold s l = .ok s' →
      ∃ t, s'.records = s.records ++ t := by
  induction l with
  | nil => intro s s' h; rw [packFold_nil_elim h]; exact ⟨[], by simp⟩
  | cons image rest ih =>
    intro s s' h
    obtain ⟨_, hrest⟩ := packFold_cons_elim h
    obtain ⟨t, ht⟩ := ih _ _ hrest
    rw [placeImage_records] at ht
    exact ⟨mkRecord s image :: t, by rw [ht]; simp⟩

lemma packFold_last_y (l : List ImageDim) :
    ∀ s s' : PackState, packFold s l = .ok s' → l ≠ [] →
      ∃ rec, s'.records.getLast? = some rec ∧ rec.top_left_y = s'.height := by
  induction l with
  | nil => intro s s' _ hne; exact absurd rfl hne
  | cons image rest ih =>
    intro s s' h _
    obtain ⟨_, hrest⟩ := packFold_cons_elim h
    rcases rest with _ | ⟨image2, rest2⟩
    · have hs' := packFold_nil_elim hrest
      subst hs'
      refine ⟨mkRecord s image, ?_, mkRecord_y s image⟩
      rw [placeImage_records]
      exact List.getLast?_concat _
    · exact ih _ _ hrest (by simp)

/-! ### The packing invariant is preserved by every successful iteration -/

lemma initState_inv : PackInv initState := by
  refine ⟨?_, ?_, ?_, ?_, ?_, ?_, ?_, ?_, ?_⟩ <;>
    simp [initState, MAX_DIMENSION]

lemma packStep_inv {s s' : PackState} {image : ImageDim}
    (h : packStep s image = .ok s') (inv : PackInv s) : PackInv s' := by
  obtain ⟨hps, hw, hh⟩ := packStep_ok_elim h
  subst hps
  by_cases hwrap : s.current_x + image.width > MAX_DIMENSION
  case pos =>
    have hW := wrapState_pos hwrap
    have eh : (placeImage s image).height = s.height + s.current_row_height := by
      rw [placeImage_height, hW]
    have ex : (placeImage s image).current_x = image.width := by
      rw [placeImage_current_x, hW]; simp
    have ec : (placeImage s image).current_row_height = image.height := by
      rw [placeImage_crh, hW]; simp
    have ew : (placeImage s image).width = max s.width image.width := by
      rw [placeImage_width, hW]; simp
    have eny : (mkRecord s image).top_left_y = s.height + s.current_row_height := by
      rw [mkRecord_y, hW]
    have enx : (mkRecord s image).top_left_x = 0 := by
      rw [mkRecord_x, hW]
    have hh' : s.height + s.current_row_height + image.height ≤ MAX_DIMENSION := by
      rw [hW] at hh; exact hh
    refine ⟨?_, ?_, ?_, ?_, ?_, ?_, ?_, ?_, ?_⟩
    · rw [ex]; omega
    · rw [eh]; omega
    · rw [ew]; have := inv.w_le; omega
    · rw [placeImage_records]
      intro r hr
      rcases List.mem_append.1 hr with hrold | hrnew
      · left
        rw [eh]
        rcases inv.placed r hrold with h1 | ⟨h1, h2, _⟩ <;> omega
      · rw [List.mem_singleton] at hrnew
        subst hrnew
        right
        refine ⟨by rw [eny, eh], ?_, ?_⟩
        · rw [ec, mkRecord_h]
        · rw [ex, enx, mkRecord_w]; omega
    · rw [placeImage_records]
      intro r hr
      rcases List.mem_append.1 hr with hrold | hrnew
      · exact inv.y_bound r hrold
      · rw [List.mem_singleton] at hrnew; subst hrnew
        rw [eny, mkRecord_h]; omega
    · rw [placeImage_records, ew]
      intro r hr
      rcases List.mem_append.1 hr with hrold | hrnew
      · have := inv.x_bound r hrold; omega
      · rw [List.mem_singleton] at hrnew; subst hrnew
        rw [enx, mkRecord_w]; omega
    · rw [placeImage_records, ew, List.map_append, List.foldl_append]
      simp only [List.map_cons, List.map_nil, List.foldl_cons, List.foldl_nil]
      rw [← inv.w_eq, enx, mkRecord_w]
      simp
    · rw [placeImage_records, List.pairwise_append]
      refine ⟨inv.nover, by simp, ?_⟩
      intro a ha b hb
      rw [List.mem_singleton] at hb; subst hb
      intro hov
      unfold rectOverlap at hov
      have hay : a.top_left_y + a.height ≤ s.height + s.current_row_height := by
        rcases inv.placed a ha with h1 | ⟨h1, h2, _⟩ <;> omega
      rw [eny] at hov
      omega
    · rw [placeImage_records, List.pairwise_append]
      refine ⟨inv.y_mono, by simp, ?_⟩
      intro a ha b hb
      rw [List.mem_singleton] at hb; subst hb
      rw [eny]
      rcases inv.placed a ha with h1 | ⟨h1, _, _⟩ <;> omega
  case neg =>
    have hW := wrapState_neg hwrap
    have eh : (placeImage s image).height = s.height := by
      rw [placeImage_height, hW]
    have ex : (placeImage s image).current_x = s.current_x + image.width := by
      rw [placeImage_current_x, hW]
    have ec : (placeImage s image).current_row_height =
        max s.current_row_height image.height := by
      rw [placeImage_crh, hW]
    have ew : (placeImage s image).width =
        max s.width (s.current_x + image.width) := by
      rw [placeImage_width, hW]
    have eny : (mkRecord s image).top_left_y = s.height := by
      rw [mkRecord_y, hW]
    have enx : (mkRecord s image).top_left_x = s.current_x := by
      rw [mkRecord_x, hW]
    have hh' : s.height + image.height ≤ MAX_DIMENSION := by
      rw [hW] at hh; exact hh
    refine ⟨?_, ?_, ?_, ?_, ?_, ?_, ?_, ?_, ?_⟩
    · rw [ex]; omega
    · rw [eh]; exact inv.h_le
    · rw [ew]; have := inv.w_le; omega
    · rw [placeImage_records]
      intro r hr
      rcases List.mem_append.1 hr with hrold | hrnew
      · rcases inv.placed r hrold with h1 | ⟨h1, h2, h3⟩
        · left; rw [eh]; omega
        · right
          refine ⟨by rw [eh]; exact h1, ?_, ?_⟩
          · rw [ec]; omega
          · rw [ex]; omega
      · rw [List.mem_singleton] at hrnew; subst hrnew
        right
        refine ⟨by rw [eny, eh], ?_, ?_⟩
        · rw [ec, mkRecord_h]; omega
        · rw [ex, enx, mkRecord_w]
    · rw [placeImage_records]
      intro r hr
      rcases List.mem_append.1 hr with hrold | hrnew
      · exact inv.y_bound r hrold
      · rw [List.mem_singleton] at hrnew; subst hrnew
        rw [eny, mkRecord_h]; omega
    · rw [placeImage_records, ew]
      intro r hr
      rcases List.mem_append.1 hr with hrold | hrnew
      · have := inv.x_bound r hrold; omega
      · rw [List.mem_singleton] at hrnew; subst hrnew
        rw [enx, mkRecord_w]; omega
    · rw [placeImage_records, ew, List.map_append, List.foldl_append]
      simp only [List.map_cons, List.map_nil, List.foldl_cons, List.foldl_nil]
      rw [← inv.w_eq, enx, mkRecord_w]
    · rw [placeImage_records, List.pairwise_append]
      refine ⟨inv.nover, by simp, ?_⟩
      intro a ha b hb
      rw [List.mem_singleton] at hb; subst hb
      intro hov
      unfold rectOverlap at hov
      rw [eny, enx] at hov
      rcases inv.placed a ha with h1 | ⟨h1, h2, h3⟩ <;> omega
    · rw [placeImage_records, List.pairwise_append]
      refine ⟨inv.y_mono, by simp, ?_⟩
      intro a ha b hb
      rw [List.mem_singleton] at hb; subst hb
      rw [eny]
      rcases inv.placed a ha with h1 | ⟨h1, _, _⟩ <;> omega

lemma packFold_inv (l : List ImageDim) :
    ∀ s s' : PackState, packFold s l = .ok s' → PackInv s → PackInv s' := by
  induction l with
  | nil => intro s s' h inv; rw [packFold_nil_elim h]; exact inv
  | cons image rest ih =>
    intro s s' h inv
    obtain ⟨hstep, hrest⟩ := packFold_cons_elim h
    exact ih _ _ hrest (packStep_inv hstep inv)

/-! ### `placeImage` under a known wrap decision -/

lemma placeImage_pos_height {s : PackState} {image : ImageDim}
    (h : s.current_x + image.width > MAX_DIMENSION) :
    (placeImage s image).height = s.height + s.current_row_height := by
  rw [placeImage_height, wrapState_pos h]

lemma placeImage_pos_cx {s : PackState} {image : ImageDim}
    (h : s.current_x + image.width > MAX_DIMENSION) :
    (placeImage s image).current_x = image.width := by
  rw [placeImage_current_x, wrapState_pos h]; simp

lemma placeImage_pos_crh {s : PackState} {image : ImageDim}
    (h : s.current_x + image.width > MAX_DIMENSION) :
    (placeImage s image).current_row_height = image.height := by
  rw [placeImage_crh, wrapState_pos h]; simp

lemma placeImage_neg_height {s : PackState} {image : ImageDim}
    (h : ¬ s.current_x + image.width > MAX_DIMENSION) :
    (placeImage s image).height = s.height := by
  rw [placeImage_height, wrapState_neg h]

lemma placeImage_neg_cx {s : PackState} {image : ImageDim}
    (h : ¬ s.current_x + image.width > MAX_DIMENSION) :
    (placeImage s image).current_x = s.current_x + image.width := by
  rw [placeImage_current_x, wrapState_neg h]

lemma placeImage_neg_crh {s : PackState} {image : ImageDim}
    (h : ¬ s.current_x + image.width > MAX_DIMENSION) :
    (placeImage s image).current_row_height =
      max s.current_row_height image.height := by
  rw [placeImage_crh, wrapState_neg h]

/-! ### The loop realises the greedy row partition -/

lemma specRowsAux_ne_nil (l : List ImageDim) :
    ∀ (cur : List ImageDim) (curW : Nat), specRowsAux cur curW l ≠ [] := by
  induction l with
  | nil => intro cur curW; simp [specRowsAux]
  | cons image rest ih =>
    intro cur curW
    unfold specRowsAux
    split_ifs
    · simp
    · exact ih _ _

lemma rowHeight_nil : rowHeight [] = 0 := rfl

lemma rowHeight_single (image : ImageDim) : rowHeight [image] = image.height := by
  unfold rowHeight; simp

lemma rowHeight_concat (row : List ImageDim) (image : ImageDim) :
    rowHeight (row ++ [image]) = max (rowHeight row) image.height := by
  unfold rowHeight
  rw [List.map_append, List.foldl_append]
  simp

lemma packFold_height_rows (l : List ImageDim) :
    ∀ (s s' : PackState) (cur : List ImageDim),
      s.current_row_height = rowHeight cur →
      packFold s l = .ok s' →
      s'.height = s.height +
        (((specRowsAux cur s.current_x l).dropLast).map rowHeight).sum := by
  induction l with
  | nil =>
    intro s s' cur _ h
    rw [packFold_nil_elim h]
    simp [specRowsAux]
  | cons image rest ih =>
    intro s s' cur hcur h
    obtain ⟨_, hrest⟩ := packFold_cons_elim h
    unfold specRowsAux
    by_cases hwrap : s.current_x + image.width > MAX_DIMENSION
    · rw [if_pos hwrap]
      have hih := ih (placeImage s image) s' [image]
        (by rw [placeImage_pos_crh hwrap, rowHeight_single]) hrest
      rw [placeImage_pos_cx hwrap, placeImage_pos_height hwrap] at hih
      rw [hih, List.dropLast_cons_of_ne_nil (specRowsAux_ne_nil rest [image] image.width)]
      simp only [List.map_cons, List.sum_cons]
      omega
    · rw [if_neg hwrap]
      have hih := ih (placeImage s image) s' (cur ++ [image])
        (by rw [placeImage_neg_crh hwrap, rowHeight_concat, hcur]) hrest
      rw [placeImage_neg_cx hwrap, placeImage_neg_height hwrap] at hih
      exact hih

lemma placeAll_phi_rows (l : List ImageDim) :
    ∀ (s : PackState) (cur : List ImageDim),
      s.current_row_height = rowHeight cur →
      phi (placeAll s l) =
        s.height + ((specRowsAux cur s.current_x l).map rowHeight).sum := by
  induction l with
  | nil =>
    intro s cur hcur
    rw [placeAll_nil]
    simp [specRowsAux, phi, hcur]
  | cons image rest ih =>
    intro s cur hcur
    rw [placeAll_cons]
    unfold specRowsAux
    by_cases hwrap : s.current_x + image.width > MAX_DIMENSION
    · rw [if_pos hwrap]
      have hih := ih (placeImage s image) [image]
        (by rw [placeImage_pos_crh hwrap, rowHeight_single])
      rw [placeImage_pos_cx hwrap, placeImage_pos_height hwrap] at hih
      rw [hih]
      simp only [List.map_cons, List.sum_cons]
      omega
    · rw [if_neg hwrap]
      have hih := ih (placeImage s image) (cur ++ [image])
        (by rw [placeImage_neg_crh hwrap, rowHeight_concat, hcur])
      rw [placeImage_neg_cx hwrap, placeImage_neg_height hwrap] at hih
      exact hih

lemma totalPackedHeight_eq_rows (images : List ImageDim) :
    totalPackedHeight images = ((specRows images).map rowHeight).sum := by
  cases images with
  | nil => rfl
  | cons image rest =>
    unfold totalPackedHeight specRows
    have h := placeAll_phi_rows (image :: rest) initState []
      (by simp [initState, rowHeight])
    unfold phi at h
    simpa [initState] using h

/-! ### Exactly when the loop throws -/

lemma packFold_isOk_false_iff (l : List ImageDim) :
    ∀ s : PackState, (packFold s l).isOk = false ↔
      ∃ i, i < l.length ∧ ∃ st : PackState,
        packFold s (l.take i) = .ok st ∧ stepFails st (l.getD i default) := by
  induction l with
  | nil => intro s; simp [packFold, Except.isOk, Except.toBool]
  | cons image rest ih =>
    intro s
    constructor
    · intro h
      unfold packFold at h
      cases hstep : packStep s image with
      | error e =>
        refine ⟨0, by simp, s, rfl, ?_⟩
        exact (packStep_isOk_false_iff s image).1 (by rw [hstep]; rfl)
      | ok s1 =>
        rw [hstep] at h
        obtain ⟨heq, _, _⟩ := packStep_ok_elim hstep
        subst heq
        obtain ⟨i, hi, st, hpre, hfail⟩ := (ih _).1 h
        refine ⟨i + 1, by simpa using hi, st, ?_, by simpa using hfail⟩
        show packFold s (image :: rest.take i) = .ok st
        unfold packFold
        rw [hstep]
        exact hpre
    · rintro ⟨i, hi, st, hpre, hfail⟩
      cases i with
      | zero =>
        have hst := packFold_nil_elim hpre
        subst hst
        have hstep := (packStep_isOk_false_iff st image).2 (by simpa using hfail)
        unfold packFold
        cases hstep2 : packStep st image with
        | error e => rfl
        | ok s1 => rw [hstep2] at hstep; simp [Except.isOk, Except.toBool] at hstep
      | succ j =>
        obtain ⟨hstep, hpre2⟩ := packFold_cons_elim (by simpa using hpre)
        unfold packFold
        rw [hstep]
        exact (ih _).2 ⟨j, by simpa using hi, st, hpre2, by simpa using hfail⟩

lemma packFold_wide_fails (l : List ImageDim) :
    ∀ s : PackState, (∃ i ∈ l, i.width > MAX_DIMENSION) →
      (packFold s l).isOk = false := by
  induction l with
  | nil => intro s h; simp at h
  | cons image rest ih =>
    rintro s ⟨i, hmem, hwide⟩
    unfold packFold
    cases hstep : packStep s image with
    | error e => rfl
    | ok s1 =>
      obtain ⟨heq, hw, _⟩ := packStep_ok_elim hstep
      rcases List.mem_cons.1 hmem with rfl | hmem2
      · omega
      · exact ih s1 ⟨i, hmem2, hwide⟩

/-! ### The record created at step `i` -/

lemma packFold_record_at (l : List ImageDim) :
    ∀ (s s' : PackState) (i : Nat), packFold s l = .ok s' → i < l.length →
      ∃ st : PackState, packFold s (l.take i) = .ok st ∧
        s'.records.getD (s.records.length + i) default =
          mkRecord st (l.getD i default) := by
  induction l with
  | nil => intro s s' i _ hi; simp at hi
  | cons image rest ih =>
    intro s s' i h hi
    obtain ⟨hstep, hrest⟩ := packFold_cons_elim h
    cases i with
    | zero =>
      refine ⟨s, rfl, ?_⟩
      obtain ⟨t, ht⟩ := packFold_records_extend rest _ _ hrest
      rw [placeImage_records] at ht
      rw [ht]
      simp [List.getD_eq_getElem?_getD, List.getElem?_append_right,
        List.getElem_append_right]
    | succ j =>
      obtain ⟨st, hpre, hrec⟩ := ih (placeImage s image) s' j hrest (by simpa using hi)
      refine ⟨st, ?_, ?_⟩
      · show packFold s (image :: rest.take j) = .ok st
        unfold packFold
        rw [hstep]
        exact hpre
      · rw [placeImage_records] at hrec
        have hlen : s.records.length + (j + 1) =
            (s.records ++ [mkRecord s image]).length + j := by
          simp; omega
        rw [hlen]
        simpa using hrec

/-! ### The record that closes the final row -/

lemma packFold_last_rec (l : List ImageDim) :
    ∀ (s s' : PackState) (lastImg : ImageDim),
      packFold s l = .ok s' → l.getLast? = some lastImg →
      ∃ rec ∈ s'.records, s'.records.getLast? = some rec ∧
        rec.top_left_y = s'.height ∧ rec.height = lastImg.height := by
  induction l with
  | nil => intro s s' lastImg _ hlast; cases hlast
  | cons image rest ih =>
    intro s s' lastImg h hlast
    obtain ⟨_, hrest⟩ := packFold_cons_elim h
    rcases rest with _ | ⟨image2, rest2⟩
    · have hs' := packFold_nil_elim hrest
      subst hs'
      simp only [List.getLast?_singleton, Option.some.injEq] at hlast
      subst hlast
      refine ⟨mkRecord s image, ?_, ?_, mkRecord_y s image, mkRecord_h s image⟩
      · rw [placeImage_records]
        exact List.mem_append_right _ (List.mem_singleton_self _)
      · rw [placeImage_records]
        exact List.getLast?_concat _
    · exact ih _ _ lastImg hrest (by rw [← hlast]; rfl)

/-! ### Frame-loop facts -/

lemma doMainLoop_length (bs : List TickBehavior) :
    (Game.doMainLoop bs).length = bs.length := by
  induction bs with
  | nil => rfl
  | cons b rest ih => simp [Game.doMainLoop, ih]

lemma doMainLoop_getD (bs : List TickBehavior) :
    ∀ n, n < bs.length →
      (Game.doMainLoop bs).getD n [] =
        (Game.tickTry (bs.getD n default)).1 := by
  induction bs with
  | nil => intro n h; simp at h
  | cons b rest ih =>
    intro n h
    cases n with
    | zero => rfl
    | succ m => exact ih m (by simpa using h)

lemma tickTry_inputThrows {b : TickBehavior} (h1 : b.inputThrows = true) :
    Game.tickTry b = ([Phase.inputPhase], some ()) := by
  unfold Game.tickTry
  rw [if_pos (by simp [h1])]

lemma tickTry_stateThrows {b : TickBehavior}
    (h1 : b.inputThrows = false) (h2 : b.stateThrows = true) :
    Game.tickTry b = ([Phase.inputPhase, Phase.statePhase], some ()) := by
  unfold Game.tickTry
  rw [if_neg (by simp [h1]), if_pos (by simp [h2])]

lemma tickTry_renderThrows {b : TickBehavior}
    (h1 : b.inputThrows = false) (h2 : b.stateThrows = false)
    (h3 : b.renderThrows = true) :
    Game.tickTry b =
      ([Phase.inputPhase, Phase.statePhase, Phase.renderPhase], some ()) := by
  unfold Game.tickTry
  rw [if_neg (by simp [h1]), if_neg (by simp [h2]), if_pos (by simp [h3])]

lemma tickTry_clean :
    Game.tickTry ⟨false, false, false⟩ =
      ([Phase.inputPhase, Phase.statePhase, Phase.renderPhase], none) := rfl

/-! ### Auxiliary: `planPacking` in terms of the fold -/

lemma planPacking_isOk (images : List ImageDim) :
    (planPacking images).isOk = (packFold initState images).isOk := by
  unfold planPacking
  cases packFold initState images <;> rfl

lemma planPacking_ok_elim {images : List ImageDim} {plan : TextureAtlasPlan}
    (h : planPacking images = .ok plan) :
    ∃ s' : PackState, packFold initState images = .ok s' ∧
      plan.width = s'.width ∧ plan.height = s'.height ∧
      plan.records = s'.records := by
  unfold planPacking at h
  cases hfold : packFold initState images with
  | error e => rw [hfold] at h; cases h
  | ok s' =>
    rw [hfold] at h
    simp only [Except.map, Except.ok.injEq] at h
    exact ⟨s', rfl, by rw [← h], by rw [← h], by rw [← h]⟩

/-! ## The claims -/

/-- C1: for every input sequence in which each image's width and height are
at most `MAX_DIMENSION` and the total packed height is at most
`MAX_DIMENSION`, `planPacking` succeeds and returns a plan containing exactly
one record per input image, in the same order as the input, with each
record's width and height equal to the corresponding image's, and no two
records' rectangles overlapping. -/
theorem claim_C1 (images : List ImageDim)
    (hdim : ∀ i ∈ images, i.width ≤ MAX_DIMENSION ∧ i.height ≤ MAX_DIMENSION)
    (htot : totalPackedHeight images ≤ MAX_DIMENSION) :
    ∃ plan : TextureAtlasPlan, planPacking images = .ok plan ∧
      plan.records.map recDims = images.map imgDims ∧
      plan.records.Pairwise (fun a b => ¬ rectOverlap a b) := by
  have hfold : packFold initState images = .ok (placeAll initState images) :=
    packFold_ok_of images initState (fun i hi => (hdim i hi).1) htot
  refine ⟨⟨(placeAll initState images).width, (placeAll initState images).height,
    (placeAll initState images).records⟩, ?_, ?_, ?_⟩
  · unfold planPacking
    rw [hfold]
    rfl
  · have hdims := packFold_records_dims images initState _ hfold
    simpa [initState] using hdims
  · exact (packFold_inv images initState _ hfold initState_inv).nover

theorem claim_C1_witness :
    ∃ plan : TextureAtlasPlan,
      planPacking [⟨100, 50⟩, ⟨100, 50⟩, ⟨4050, 50⟩] = .ok plan ∧
      plan.records.map recDims =
        ([⟨100, 50⟩, ⟨100, 50⟩, ⟨4050, 50⟩] : List ImageDim).map imgDims ∧
      plan.records.Pairwise (fun a b => ¬ rectOverlap a b) :=
  claim_C1 [⟨100, 50⟩, ⟨100, 50⟩, ⟨4050, 50⟩] (by decide) (by decide)

/-- C2, counterexample: the single accepted input 10×10 produces a record
with `top_left_y + height = 10` while `plan.height = 0`, refuting
`top_left_y + height ≤ plan.height`. -/
theorem claim_C2_counterexample :
    ∃ plan : TextureAtlasPlan, planPacking [⟨10, 10⟩] = .ok plan ∧
      ∃ r ∈ plan.records, ¬ (r.top_left_y + r.height ≤ plan.height) :=
  ⟨⟨10, 0, [⟨0, 0, 10, 10⟩]⟩, rfl, ⟨0, 0, 10, 10⟩, by simp, by decide⟩

/-- C2, amended: for every input accepted by `planPacking`,
`plan.width ≤ MAX_DIMENSION`, `plan.height ≤ MAX_DIMENSION`, and every record
satisfies `top_left_x + width ≤ plan.width` and
`top_left_y + height ≤ MAX_DIMENSION`; records of the trailing uncommitted
row may exceed `plan.height`. -/
theorem claim_C2_amended (images : List ImageDim) (plan : TextureAtlasPlan)
    (h : planPacking images = .ok plan) :
    plan.width ≤ MAX_DIMENSION ∧ plan.height ≤ MAX_DIMENSION ∧
    ∀ r ∈ plan.records, r.top_left_x + r.width ≤ plan.width ∧
      r.top_left_y + r.height ≤ MAX_DIMENSION := by
  obtain ⟨s', hfold, hw, hh, hr⟩ := planPacking_ok_elim h
  have inv := packFold_inv images initState s' hfold initState_inv
  rw [hw, hh, hr]
  exact ⟨inv.w_le, inv.h_le, fun r hrm => ⟨inv.x_bound r hrm, inv.y_bound r hrm⟩⟩

theorem claim_C2_amended_witness :
    (TextureAtlasPlan.mk 10 0 [⟨0, 0, 10, 10⟩]).width ≤ MAX_DIMENSION ∧
    (TextureAtlasPlan.mk 10 0 [⟨0, 0, 10, 10⟩]).height ≤ MAX_DIMENSION ∧
    ∀ r ∈ (TextureAtlasPlan.mk 10 0 [⟨0, 0, 10, 10⟩]).records,
      r.top_left_x + r.width ≤ (TextureAtlasPlan.mk 10 0 [⟨0, 0, 10, 10⟩]).width ∧
      r.top_left_y + r.height ≤ MAX_DIMENSION :=
  claim_C2_amended [⟨10, 10⟩] _ rfl

/-- C3: for every input accepted by `planPacking`, the returned plan's height
equals the sum of the maximum image heights of the completed (committed) rows
only — a row's height is added only when a later image wraps to a new row,
and the final (possibly partial) row's height is never added. -/
theorem claim_C3 (images : List ImageDim) (plan : TextureAtlasPlan)
    (h : planPacking images = .ok plan) :
    plan.height = committedHeight images := by
  obtain ⟨s', hfold, _, hh, _⟩ := planPacking_ok_elim h
  rw [hh]
  cases images with
  | nil =>
    have hs := packFold_nil_elim hfold
    subst hs
    rfl
  | cons image rest =>
    unfold committedHeight specRows
    have hrows := packFold_height_rows (image :: rest) initState s' []
      (by simp [initState, rowHeight]) hfold
    simpa [initState] using hrows

theorem claim_C3_witness :
    (TextureAtlasPlan.mk 4090 20 [⟨0, 0, 10, 20⟩, ⟨0, 20, 4090, 30⟩]).height =
      committedHeight [⟨10, 20⟩, ⟨4090, 30⟩] :=
  claim_C3 [⟨10, 20⟩, ⟨4090, 30⟩] _ rfl

/-- C4: for every input accepted by `planPacking`, the returned plan's width
equals the maximum over all records of `top_left_x + width`, and is 0 for the
empty input. -/
theorem claim_C4 (images : List ImageDim) (plan : TextureAtlasPlan)
    (h : planPacking images = .ok plan) :
    plan.width =
      (plan.records.map (fun r => r.top_left_x + r.width)).foldl max 0 ∧
    (images = [] → plan.width = 0) := by
  obtain ⟨s', hfold, hw, _, hr⟩ := planPacking_ok_elim h
  have inv := packFold_inv images initState s' hfold initState_inv
  constructor
  · rw [hw, hr]
    exact inv.w_eq
  · rintro rfl
    have hs := packFold_nil_elim hfold
    subst hs
    rw [hw]
    rfl

theorem claim_C4_witness :
    (TextureAtlasPlan.mk 4050 50
        [⟨0, 0, 100, 50⟩, ⟨100, 0, 100, 50⟩, ⟨0, 50, 4050, 50⟩]).width =
      ((TextureAtlasPlan.mk 4050 50
          [⟨0, 0, 100, 50⟩, ⟨100, 0, 100, 50⟩, ⟨0, 50, 4050, 50⟩]).records.map
        (fun r => r.top_left_x + r.width)).foldl max 0 ∧
    ([⟨100, 50⟩, ⟨100, 50⟩, ⟨4050, 50⟩] = ([] : List ImageDim) →
      (TextureAtlasPlan.mk 4050 50
        [⟨0, 0, 100, 50⟩, ⟨100, 0, 100, 50⟩, ⟨0, 50, 4050, 50⟩]).width = 0) :=
  claim_C4 [⟨100, 50⟩, ⟨100, 50⟩, ⟨4050, 50⟩] _ rfl

/-- C5: `planPacking` throws exactly when, processing images in input order,
some image fails the width check (`width > MAX_DIMENSION`) or — evaluated
after the row-wrap decision for that image, against the committed height the
image would actually occupy — the height check
(`height-so-far + image.height > MAX_DIMENSION`); in particular any input
containing an image wider than `MAX_DIMENSION` always fails. -/
theorem claim_C5 (images : List ImageDim) :
    ((planPacking images).isOk = false ↔
      ∃ i, i < images.length ∧ ∃ st : PackState,
        packFold initState (images.take i) = .ok st ∧
          ((images.getD i default).width > MAX_DIMENSION ∨
            (wrapState st (images.getD i default)).height +
              (images.getD i default).height > MAX_DIMENSION)) ∧
    ((∃ img ∈ images, img.width > MAX_DIMENSION) →
      (planPacking images).isOk = false) := by
  constructor
  · rw [planPacking_isOk]
    simpa [stepFails] using packFold_isOk_false_iff images initState
  · intro hex
    rw [planPacking_isOk]
    exact packFold_wide_fails images initState hex

theorem claim_C5_witness :
    (planPacking [⟨10, 10⟩, ⟨5000, 10⟩, ⟨10, 10⟩]).isOk = false :=
  (claim_C5 [⟨10, 10⟩, ⟨5000, 10⟩, ⟨10, 10⟩]).2 ⟨⟨5000, 10⟩, by simp, by decide⟩

/-- C6: over any schedule of ticks, whichever phase of tick `n` throws, the
remaining phases of that tick are skipped — an input throw leaves only
`input` invoked, a state throw leaves `input, state` (render not invoked),
a render throw happens after all three were invoked — and in every such case
the exception escapes the try-block into the catch and no further: every
scheduled tick still produces a trace entry, and any tick whose phases are
all clean runs input → state → render in order (in particular tick `n+1`
after a throwing tick `n`). -/
theorem claim_C6 (bs : List TickBehavior) (n : Nat) (hn : n < bs.length) :
    (Game.doMainLoop bs).length = bs.length ∧
    ((bs.getD n default).inputThrows = true →
      (Game.doMainLoop bs).getD n [] = [Phase.inputPhase] ∧
      (Game.tickTry (bs.getD n default)).2 = some ()) ∧
    ((bs.getD n default).inputThrows = false →
      (bs.getD n default).stateThrows = true →
      (Game.doMainLoop bs).getD n [] = [Phase.inputPhase, Phase.statePhase] ∧
      (Game.tickTry (bs.getD n default)).2 = some ()) ∧
    ((bs.getD n default).inputThrows = false →
      (bs.getD n default).stateThrows = false →
      (bs.getD n default).renderThrows = true →
      (Game.doMainLoop bs).getD n [] =
        [Phase.inputPhase, Phase.statePhase, Phase.renderPhase] ∧
      (Game.tickTry (bs.getD n default)).2 = some ()) ∧
    ∀ m, m < bs.length → bs.getD m default = ⟨false, false, false⟩ →
      (Game.doMainLoop bs).getD m [] =
        [Phase.inputPhase, Phase.statePhase, Phase.renderPhase] := by
  refine ⟨doMainLoop_length bs, ?_, ?_, ?_, ?_⟩
  · intro h1
    rw [doMainLoop_getD bs n hn, tickTry_inputThrows h1]
    exact ⟨rfl, rfl⟩
  · intro h1 h2
    rw [doMainLoop_getD bs n hn, tickTry_stateThrows h1 h2]
    exact ⟨rfl, rfl⟩
  · intro h1 h2 h3
    rw [doMainLoop_getD bs n hn, tickTry_renderThrows h1 h2 h3]
    exact ⟨rfl, rfl⟩
  · intro m hm hclean
    rw [doMainLoop_getD bs m hm, hclean, tickTry_clean]

theorem claim_C6_witness :
    (Game.doMainLoop [⟨true, false, false⟩, ⟨false, false, false⟩]).getD 0 [] =
      [Phase.inputPhase] ∧
    (Game.tickTry (([⟨true, false, false⟩, ⟨false, false, false⟩] :
        List TickBehavior).getD 0 default)).2 = some () :=
  (claim_C6 [⟨true, false, false⟩, ⟨false, false, false⟩] 0 (by decide)).2.1 rfl

/-- C7: when the display manager's `initialize()` throws during
`Game.start`, the exception is swallowed and `start` still enters the main
loop: the run is in the running state, the whole tick schedule is processed,
and the first tick executes. -/
theorem claim_C7 (ticks : List TickBehavior) :
    (Game.start true ticks).running = true ∧
    (Game.start true ticks).trace = Game.doMainLoop ticks ∧
    (Game.start true ticks).trace.length = ticks.length ∧
    ∀ b rest, ticks = b :: rest →
      (Game.start true ticks).trace.getD 0 [] = (Game.tickTry b).1 := by
  have hstart : Game.start true ticks = ⟨true, Game.doMainLoop ticks⟩ := rfl
  refine ⟨by rw [hstart], by rw [hstart], ?_, ?_⟩
  · rw [hstart]
    exact doMainLoop_length ticks
  · rintro b rest rfl
    rw [hstart]
    simpa using doMainLoop_getD (b :: rest) 0 (by simp)

theorem claim_C7_witness :
    (Game.start true [⟨false, false, false⟩]).trace.getD 0 [] =
      (Game.tickTry ⟨false, false, false⟩).1 :=
  (claim_C7 [⟨false, false, false⟩]).2.2.2 ⟨false, false, false⟩ [] rfl

/-- C8: for every input accepted by `planPacking`, the records' `top_left_y`
values are non-decreasing in input order, and each record's `top_left_y`
equals the committed height at the moment it was placed (the post-wrap
committed height of the state reached by the preceding images). -/
theorem claim_C8 (images : List ImageDim) (plan : TextureAtlasPlan)
    (h : planPacking images = .ok plan) :
    plan.records.Pairwise (fun a b => a.top_left_y ≤ b.top_left_y) ∧
    ∀ i, i < images.length →
      ∃ st : PackState, packFold initState (images.take i) = .ok st ∧
        (plan.records.getD i default).top_left_y =
          (wrapState st (images.getD i default)).height := by
  obtain ⟨s', hfold, _, _, hr⟩ := planPacking_ok_elim h
  constructor
  · rw [hr]
    exact (packFold_inv images initState s' hfold initState_inv).y_mono
  · intro i hi
    obtain ⟨st, hpre, hrec⟩ := packFold_record_at images initState s' i hfold hi
    refine ⟨st, hpre, ?_⟩
    simp only [initState, List.length_nil, Nat.zero_add] at hrec
    rw [hr, hrec, mkRecord_y]

theorem claim_C8_witness :
    (TextureAtlasPlan.mk 30 0 [⟨0, 0, 10, 5⟩, ⟨10, 0, 20, 7⟩]).records.Pairwise
      (fun a b => a.top_left_y ≤ b.top_left_y) :=
  (claim_C8 [⟨10, 5⟩, ⟨20, 7⟩] _ rfl).1

/-- C9: an image of width exactly `MAX_DIMENSION` passes the width check
(which is strict), and any such image is always placed at `top_left_x = 0`:
either the cursor was already at 0, or `current_x + 4096 > 4096` forces a
row wrap. -/
theorem claim_C9 :
    (∀ (images : List ImageDim) (plan : TextureAtlasPlan) (i : Nat),
      planPacking images = .ok plan → i < images.length →
      (images.getD i default).width = MAX_DIMENSION →
      (plan.records.getD i default).top_left_x = 0) ∧
    (∀ hgt : Nat, hgt ≤ MAX_DIMENSION →
      (planPacking [⟨MAX_DIMENSION, hgt⟩]).isOk = true) := by
  constructor
  · intro images plan i h hi hwidth
    obtain ⟨s', hfold, _, _, hr⟩ := planPacking_ok_elim h
    obtain ⟨st, _, hrec⟩ := packFold_record_at images initState s' i hfold hi
    simp only [initState, List.length_nil, Nat.zero_add] at hrec
    rw [hr, hrec, mkRecord_x]
    unfold wrapState
    split_ifs with hwrap
    · rfl
    · rw [hwidth] at hwrap
      omega
  · intro hgt hhgt
    have hnw : ¬ (initState.current_x +
        (ImageDim.mk MAX_DIMENSION hgt).width > MAX_DIMENSION) := by
      simp [initState]
    have hstep : packStep initState ⟨MAX_DIMENSION, hgt⟩ =
        .ok (placeImage initState ⟨MAX_DIMENSION, hgt⟩) := by
      apply packStep_ok_of
      · exact le_refl _
      · rw [wrapState_neg hnw]
        simpa [initState] using hhgt
    unfold planPacking packFold
    rw [hstep]
    rfl

theorem claim_C9_witness :
    (planPacking [⟨MAX_DIMENSION, 7⟩]).isOk = true :=
  claim_C9.2 7 (by decide)

/-- C10: `packCanvas` allocates a surface of exactly `plan.width ×
plan.height`; for every non-empty accepted input whose images all have
positive height, some record (the one closing the final row) has
`top_left_y + height > plan.height`, so its rectangle is not contained in
the allocated surface. -/
theorem claim_C10 (images : List ImageDim) (plan : TextureAtlasPlan)
    (h : planPacking images = .ok plan) (hne : images ≠ [])
    (hpos : ∀ i ∈ images, 0 < i.height) :
    ∃ canvas : Canvas, packCanvas true plan = .ok canvas ∧
      canvas.width = plan.width ∧ canvas.height = plan.height ∧
      ∃ r ∈ plan.records, plan.height < r.top_left_y + r.height := by
  refine ⟨_, rfl, rfl, rfl, ?_⟩
  obtain ⟨s', hfold, _, hh, hr⟩ := planPacking_ok_elim h
  obtain ⟨lastImg, hlast⟩ := Option.isSome_iff_exists.1
    (List.getLast?_isSome.2 hne)
  obtain ⟨rec, hmem, _, hy, hrh⟩ :=
    packFold_last_rec images initState s' lastImg hfold hlast
  refine ⟨rec, by rw [hr]; exact hmem, ?_⟩
  have hmem2 : lastImg ∈ images := by
    obtain ⟨hne2, heq⟩ := List.mem_getLast?_eq_getLast (l := images) hlast
    rw [heq]
    exact List.getLast_mem hne2
  have hpos' : 0 < lastImg.height := hpos lastImg hmem2
  rw [hh, hy, hrh]
  omega

theorem claim_C10_witness :
    ∃ canvas : Canvas,
      packCanvas true (TextureAtlasPlan.mk 10 0 [⟨0, 0, 10, 10⟩]) = .ok canvas ∧
      canvas.width = (TextureAtlasPlan.mk 10 0 [⟨0, 0, 10, 10⟩]).width ∧
      canvas.height = (TextureAtlasPlan.mk 10 0 [⟨0, 0, 10, 10⟩]).height ∧
      ∃ r ∈ (TextureAtlasPlan.mk 10 0 [⟨0, 0, 10, 10⟩]).records,
        (TextureAtlasPlan.mk 10 0 [⟨0, 0, 10, 10⟩]).height <
          r.top_left_y + r.height :=
  claim_C10 [⟨10, 10⟩] _ rfl (by simp) (by decide)

end SandboxGame
